import Mathlib

/-!
Verification of the core routing engine of the OMEN model-inference gateway.

The Rust source is shallowly embedded: strings are lists of characters,
`f64` money and metric values are idealized as rationals, stateful
coordinators become explicit state-passing step functions folded over the
finite sequence of channel events they receive, and fallible operations
return `Except`.  Each definition mirrors one function of the source tree
(`multiplexer.rs`, `rate_limiter.rs`, `billing.rs`, `routing.rs`,
`router.rs`, `types.rs`, `auth.rs`).
-/

namespace Omen

/-! ## String model

Rust `&str` values are modelled as `List Char`.  `str` converts a Lean
string literal.  `utf8Len` models Rust `str::len` (UTF-8 byte count),
`trim` models `str::trim`, `containsStr` models `str::contains` with a
string pattern and `containsChar` with a char pattern. -/

abbrev Str := List Char

def str (s : String) : Str := s.data

/-- Whitespace test used by `trim`; models `char::is_whitespace` (restricted
to the ASCII whitespace the gateway ever sees in chunks). -/
def isWs (c : Char) : Bool := c.isWhitespace

def trim (s : Str) : Str := ((s.dropWhile isWs).reverse.dropWhile isWs).reverse

def utf8Len (s : Str) : Nat := (s.map Char.utf8Size).sum

def containsStr (s pat : Str) : Bool := decide (List.IsInfix pat s)

def containsChar (s : Str) (c : Char) : Bool := s.contains c

def toLower (s : Str) : Str := s.map Char.toLower

/-- The three-backtick code fence marker (backtick is `Char.ofNat 96`). -/
def fence : Str := [Char.ofNat 96, Char.ofNat 96, Char.ofNat 96]

def newlineChar : Char := Char.ofNat 10

/-! ## Multiplexer predicates (multiplexer.rs) -/

/-- `StreamMultiplexer::is_useful_token` (multiplexer.rs:458-470): trim the
chunk; an empty remainder is never useful; otherwise useful when the byte
length reaches `min_tokens`, or a code fence, or a newline occurs. -/
def is_useful_token (chunk : Str) (min_tokens : Nat) : Bool :=
  let content := trim chunk
  if content.isEmpty then false
  else
    decide (min_tokens ≤ utf8Len content) || containsStr content fence ||
      containsChar content newlineChar

/-- `StreamMultiplexer::should_upgrade` (multiplexer.rs:472-481); the source
tests the code fence twice, kept verbatim. -/
def should_upgrade (chunk : Str) : Bool :=
  containsStr chunk fence ||
  containsStr chunk fence ||
  containsStr chunk (str "function_call") ||
  containsStr chunk (str "tool_call")

/-! ## Message content and intent classification (types.rs, router.rs) -/

/-- `ContentPart` (types.rs:140-147). -/
inductive ContentPart where
  | text (t : Str)
  | imageUrl (url : Str) (detail : Option Str)
deriving DecidableEq

/-- `MessageContent` (types.rs:131-136). -/
inductive MessageContent where
  | Text (t : Str)
  | Parts (ps : List ContentPart)
deriving DecidableEq

/-- `MessageContent::text` (types.rs:157-170): a plain text payload, or the
text parts of a multimodal payload joined with single spaces. -/
def MessageContent.text : MessageContent → Str
  | .Text t => t
  | .Parts ps =>
      List.intercalate [' ']
        (ps.filterMap fun p =>
          match p with
          | .text t => some t
          | .imageUrl _ _ => none)

/-- `ChatMessage` (types.rs:118-127), restricted to the fields
`classify_intent` reads. -/
structure ChatMessage where
  role : Str
  content : MessageContent
deriving DecidableEq

/-- `OmenRouter::classify_intent` (router.rs:435-458): lowercase the text of
the last message of the list (any role), then run the keyword chain; every
fall-through, including an empty message list, yields `general`. -/
def classify_intent (messages : List ChatMessage) : Option Str :=
  match messages.getLast? with
  | some last =>
      let content := toLower last.content.text
      if containsStr content (str "code") || containsStr content (str "function") ||
          containsStr content (str "implement") then some (str "code")
      else if containsStr content (str "test") || containsStr content (str "unit test") then
        some (str "tests")
      else if containsStr content (str "regex") || containsStr content (str "pattern") then
        some (str "regex")
      else if containsStr content (str "analyze") || containsStr content (str "review") then
        some (str "analysis")
      else if containsStr content (str "explain") || containsStr content (str "summarize") then
        some (str "explanation")
      else some (str "general")
  | none => some (str "general")

/-- The ordered keyword table exactly as the specification enumerates it. -/
def intentRules : List (List Str × Str) :=
  [([str "code", str "function", str "implement"], str "code"),
   ([str "test", str "unit test"], str "tests"),
   ([str "regex", str "pattern"], str "regex"),
   ([str "analyze", str "review"], str "analysis"),
   ([str "explain", str "summarize"], str "explanation")]

/-- First rule whose keyword list has a substring hit, else `general`. -/
def applyRules : List (List Str × Str) → Str → Str
  | [], _ => str "general"
  | (kws, intent) :: rest, content =>
      if kws.any (fun k => containsStr content k) then intent
      else applyRules rest content

/-- The classifier as the specification words it: the keyword rules applied
to the last **user** message of the request. -/
def classify_intent_spec_lastUser (messages : List ChatMessage) : Option Str :=
  match (messages.filter fun m => m.role = str "user").getLast? with
  | some last => some (applyRules intentRules (toLower last.content.text))
  | none => some (str "general")

/-- The classifier with the rule table of the specification but inspecting
the last message of any role, as the source does. -/
def classify_intent_spec_lastAny (messages : List ChatMessage) : Option Str :=
  match messages.getLast? with
  | some last => some (applyRules intentRules (toLower last.content.text))
  | none => some (str "general")

/-! ## Admission control: rate limiter (rate_limiter.rs) -/

/-- `RateLimitConfig` (rate_limiter.rs:13-19); the 60-second window size is
handled by quantifying over the event sequence of one window. -/
structure RateLimitConfig where
  requests_per_minute : Nat
  tokens_per_minute : Nat
  burst_allowance : Nat
deriving DecidableEq

/-- `RateLimitBucket` (rate_limiter.rs:32-38), the two counters of one
wall-clock window. -/
structure RateLimitBucket where
  requests : Nat
  tokens : Nat
deriving DecidableEq

/-- `RateLimitBucket::new` / `reset` (rate_limiter.rs:40-61). -/
def RateLimitBucket.new : RateLimitBucket := ⟨0, 0⟩

/-- `RateLimitBucket::can_consume` (rate_limiter.rs:63-66). -/
def RateLimitBucket.can_consume (b : RateLimitBucket) (config : RateLimitConfig)
    (tokens_requested : Nat) : Bool :=
  decide (b.requests < config.requests_per_minute + config.burst_allowance) &&
  decide (b.tokens + tokens_requested ≤ config.tokens_per_minute)

/-- `RateLimitBucket::consume` (rate_limiter.rs:68-71). -/
def RateLimitBucket.consume (b : RateLimitBucket) (tokens : Nat) : RateLimitBucket :=
  ⟨b.requests + 1, b.tokens + tokens⟩

/-- Error taxonomy (error.rs:3-43); note there is no `Timeout` variant. -/
inductive OmenError where
  | Provider (msg : Str)
  | InvalidRequest (msg : Str)
  | ModelNotFound (msg : Str)
  | ProviderUnavailable (msg : Str)
  | RateLimitExceeded
  | Unauthorized
  | CacheError (msg : Str)
  | Internal (msg : Str)
deriving DecidableEq

/-- `AdaptiveRateLimiter::check_rate_limit`, steps after window reset
(rate_limiter.rs:134-148): deny without touching the bucket when
`can_consume` fails, otherwise consume and admit. -/
def check_rate_limit (config : RateLimitConfig) (b : RateLimitBucket)
    (estimated_tokens : Nat) : Except OmenError RateLimitBucket :=
  if b.can_consume config estimated_tokens then .ok (b.consume estimated_tokens)
  else .error .RateLimitExceeded

/-- One admission attempt inside a window: a denied request leaves the
bucket unchanged. -/
def rateLimitStep (config : RateLimitConfig) (b : RateLimitBucket)
    (estimated_tokens : Nat) : RateLimitBucket :=
  match check_rate_limit config b estimated_tokens with
  | .ok b2 => b2
  | .error _ => b

/-- A whole window: the bucket starts freshly reset and absorbs the window's
admission attempts in order. -/
def runWindow (config : RateLimitConfig) (ests : List Nat) : RateLimitBucket :=
  ests.foldl (rateLimitStep config) RateLimitBucket.new

/-- The three tier configurations installed by `AdaptiveRateLimiter::new`
(rate_limiter.rs:82-107). -/
def tierRateConfigs : List (String × RateLimitConfig) :=
  [("free", ⟨20, 2000, 5⟩), ("pro", ⟨200, 50000, 20⟩), ("enterprise", ⟨1000, 500000, 100⟩)]

/-! ## Billing ledger (billing.rs, auth.rs)

`f64` money amounts are idealized as rationals.  Wall-clock comparisons
(`should_reset_daily`, `should_reset_monthly`) depend on the ambient clock,
so the rollover decision is passed in as a boolean argument. -/

/-- `BillingTier` (billing.rs:11-19). -/
structure BillingTier where
  name : String
  requests_per_day : Option Nat
  tokens_per_day : Option Nat
  budget_per_day_usd : Option ℚ
  cost_multiplier : ℚ
  priority_weight : ℚ
deriving DecidableEq

/-- `UsageTracker` (auth.rs:221-226) without the wall-clock field. -/
structure UsageTracker where
  requests_today : Nat
  tokens_today : Nat
  cost_today_usd : ℚ
deriving DecidableEq

def UsageTracker.default : UsageTracker := ⟨0, 0, 0⟩

/-- `UsageTracker::add_usage` (auth.rs:252-260); `dayChanged` stands for
`should_reset_daily()`. -/
def UsageTracker.add_usage (u : UsageTracker) (dayChanged : Bool) (tokens : Nat)
    (cost_usd : ℚ) : UsageTracker :=
  let u := if dayChanged then ⟨0, 0, 0⟩ else u
  ⟨u.requests_today + 1, u.tokens_today + tokens, u.cost_today_usd + cost_usd⟩

/-- `UserBilling` (billing.rs:34-45) without the wall-clock fields. -/
structure UserBilling where
  user_id : String
  tier : BillingTier
  usage_tracker : UsageTracker
  monthly_spend_usd : ℚ
  total_spend_usd : ℚ
deriving DecidableEq

/-- `UserBilling::new` (billing.rs:50-63). -/
def UserBilling.new (user_id : String) (tier : BillingTier) : UserBilling :=
  ⟨user_id, tier, UsageTracker.default, 0, 0⟩

/-- `UserBilling::record_usage` (billing.rs:95-103): the charged amount is
`provider_cost_usd * tier.cost_multiplier`. -/
def UserBilling.record_usage (u : UserBilling) (dayChanged : Bool) (tokens_used : Nat)
    (provider_cost_usd : ℚ) : UserBilling :=
  let actual_cost := provider_cost_usd * u.tier.cost_multiplier
  { u with
    usage_tracker := u.usage_tracker.add_usage dayChanged tokens_used actual_cost,
    monthly_spend_usd := u.monthly_spend_usd + actual_cost,
    total_spend_usd := u.total_spend_usd + actual_cost }

/-- `UserBilling::reset_monthly` (billing.rs:112-119); `monthChanged` stands
for `should_reset_monthly()`. -/
def UserBilling.reset_monthly (u : UserBilling) (monthChanged : Bool) : UserBilling :=
  if monthChanged then { u with monthly_spend_usd := 0 } else u

/-- The ledger operations the billing manager performs on one tenant's
`UserBilling`: `BillingManager::record_usage` (billing.rs:239-263, which
first applies the monthly reset check and then records), and
`BillingManager::update_user_tier` (billing.rs:206-222). -/
inductive BillingOp where
  | record (dayChanged monthChanged : Bool) (input_tokens output_tokens : Nat)
      (provider_cost_usd : ℚ)
  | setTier (tier : BillingTier)
deriving DecidableEq

def UserBilling.applyOp (u : UserBilling) : BillingOp → UserBilling
  | .record dayChanged monthChanged input_tokens output_tokens cost =>
      (u.reset_monthly monthChanged).record_usage dayChanged
        (input_tokens + output_tokens) cost
  | .setTier tier => { u with tier := tier }

def UserBilling.applyOps (u : UserBilling) (ops : List BillingOp) : UserBilling :=
  ops.foldl UserBilling.applyOp u

/-- The specification's sum: `provider_cost_usd * cost_multiplier` of the
tier in force at the time of each record, following tier changes. -/
def chargedSum (tier : BillingTier) : List BillingOp → ℚ
  | [] => 0
  | .record _ _ _ _ cost :: rest => cost * tier.cost_multiplier + chargedSum tier rest
  | .setTier tier2 :: rest => chargedSum tier2 rest

/-! ## Adaptive router metrics and EMA updates (routing.rs) -/

/-- `ProviderMetrics` (routing.rs:29-38), `f64` fields as rationals. -/
structure ProviderMetrics where
  provider_id : String
  avg_latency_ms : ℚ
  success_rate : ℚ
  cost_per_1k_tokens : ℚ
  quality_score : ℚ
  current_load : ℚ
  availability : ℚ
deriving DecidableEq

/-- `ProviderMetrics::default` (routing.rs:40-52). -/
def ProviderMetrics.default : ProviderMetrics :=
  ⟨"", 1000, 95/100, 1/100, 8/10, 1/2, 99/100⟩

/-- The learning rate `alpha = 0.1` (routing.rs:342). -/
def alpha : ℚ := 1/10

/-- `AdvancedRouter::update_metrics_from_response` (routing.rs:322-359),
the EMA update of one provider's metrics record. -/
def update_metrics_from_response (m : ProviderMetrics) (latency_ms : Nat)
    (success : Bool) (cost_usd : ℚ) (tokens_used : Nat) : ProviderMetrics :=
  let m := { m with avg_latency_ms := m.avg_latency_ms * (1 - alpha) + (latency_ms : ℚ) * alpha }
  let m :=
    if success then { m with success_rate := m.success_rate * (1 - alpha) + alpha }
    else { m with success_rate := m.success_rate * (1 - alpha) }
  if 0 < tokens_used then
    let cost_per_1k := cost_usd / (tokens_used : ℚ) * 1000
    { m with cost_per_1k_tokens := m.cost_per_1k_tokens * (1 - alpha) + cost_per_1k * alpha }
  else m

/-- `N` successive updates with identical samples. -/
def updateN (m : ProviderMetrics) (latency_ms : Nat) (success : Bool) (cost_usd : ℚ)
    (tokens_used : Nat) : Nat → ProviderMetrics
  | 0 => m
  | n + 1 => update_metrics_from_response (updateN m latency_ms success cost_usd tokens_used n)
      latency_ms success cost_usd tokens_used

/-- Reference EMA recursion `new = old * (1 - alpha) + x * alpha`. -/
def emaN (a x : ℚ) : Nat → ℚ
  | 0 => a
  | n + 1 => emaN a x n * (1 - alpha) + x * alpha

/-! ## Multiplexer coordinators (multiplexer.rs)

Each provider driver pushes `StreamEvent`s into one mpsc channel; the
coordinator task folds over the finite sequence of events it receives,
in arrival order.  `raceRun` is the Race coordinator loop
(multiplexer.rs:224-283); `specRun` is the SpeculateK coordinator loop
(multiplexer.rs:352-390).  Items sent to the caller's stream are recorded
in `output`, each annotated with the provider whose event produced it. -/

/-- `StreamEvent` (multiplexer.rs:52-72). -/
inductive StreamEvent where
  | Token (provider_id : String) (chunk : Str) (latency_ms : Nat)
  | Error (provider_id : String) (error : Str)
  | Done (provider_id : String) (total_tokens : Nat) (cost_usd : ℚ)
  | Upgrade (from_provider to_provider : String) (reason : Str)
deriving DecidableEq

/-- One item sent into `stream_tx`: an `Ok(chunk)` or an
`Err(OmenError::Provider(..))`, tagged with the provider it came from. -/
inductive OutItem where
  | chunk (provider_id : String) (text : Str)
  | failure (provider_id : String) (error : Str)
deriving DecidableEq

def OutItem.pid : OutItem → String
  | .chunk p _ => p
  | .failure p _ => p

/-- State of the Race coordinator loop (multiplexer.rs:224-283).
`commits` is a ghost trace of winner elections, `budget_fired` a ghost flag
set when the budget-breach branch (multiplexer.rs:269-274) runs, and
`cancel_requested` records calls of `cancellation_clone.cancel()`. -/
structure RaceState where
  winner : Option String
  total_cost : ℚ
  token_count : Nat
  output : List OutItem
  finished : Bool
  cancel_requested : Bool
  budget_fired : Bool
  commits : List String
deriving DecidableEq

def RaceState.init : RaceState := ⟨none, 0, 0, [], false, false, false, []⟩

/-- The budget check run after every non-breaking event
(multiplexer.rs:269-274). -/
def raceBudgetCheck (budget_cap : ℚ) (s : RaceState) : RaceState :=
  if budget_cap < s.total_cost then
    { s with cancel_requested := true, finished := true, budget_fired := true }
  else s

/-- One iteration of the Race coordinator loop on a received event
(multiplexer.rs:236-274).  A winner's `Done` or `Error` breaks the loop
before the budget check; all other events fall through to it. -/
def raceStep (min_useful : Nat) (budget_cap : ℚ) (s : RaceState) (e : StreamEvent) :
    RaceState :=
  if s.finished then s
  else
    match e with
    | .Token pid chunk _ =>
        let s1 :=
          if is_useful_token chunk min_useful && s.winner.isNone then
            { s with winner := some pid, cancel_requested := true,
                     commits := s.commits ++ [pid] }
          else s
        let s2 :=
          if s1.winner = some pid then
            { s1 with token_count := s1.token_count + 1,
                      output := s1.output ++ [.chunk pid chunk] }
          else s1
        raceBudgetCheck budget_cap s2
    | .Done pid _ cost_usd =>
        if s.winner = some pid then
          { s with total_cost := s.total_cost + cost_usd, finished := true }
        else raceBudgetCheck budget_cap s
    | .Error pid error =>
        if s.winner = some pid then
          { s with output := s.output ++ [.failure pid error], finished := true }
        else raceBudgetCheck budget_cap s
    | .Upgrade _ _ _ => raceBudgetCheck budget_cap s

/-- The Race coordinator over the events received before the loop ends. -/
def raceRun (min_useful : Nat) (budget_cap : ℚ) (events : List StreamEvent) : RaceState :=
  events.foldl (raceStep min_useful budget_cap) RaceState.init

/-- The Race coordinator when the deadline timer fires after the given
events: the timeout arm (multiplexer.rs:276-280) cancels all drivers and
breaks, sending nothing further to the caller. -/
def raceRunDeadline (min_useful : Nat) (budget_cap : ℚ) (events : List StreamEvent) :
    RaceState :=
  let s := raceRun min_useful budget_cap events
  if s.finished then s else { s with cancel_requested := true, finished := true }

/-- State of the SpeculateK coordinator loop (multiplexer.rs:352-390);
`commits` is a ghost trace of assignments to `current_provider`. -/
structure SpecState where
  current : Option String
  can_upgrade : Bool
  output : List OutItem
  finished : Bool
  cancel_requested : Bool
  commits : List String
deriving DecidableEq

def SpecState.init : SpecState := ⟨none, true, [], false, false, []⟩

/-- The election half of the SpeculateK `Token` arm
(multiplexer.rs:359-369): the first token of any provider elects it
Current; a later chunk of a different provider passing `should_upgrade`
switches Current and spends the one upgrade. -/
def specTokenCommit (s : SpecState) (pid : String) (chunk : Str) : SpecState :=
  match s.current with
  | none => { s with current := some pid, commits := s.commits ++ [pid] }
  | some cur =>
      if s.can_upgrade && cur != pid && should_upgrade chunk then
        { s with current := some pid, can_upgrade := false,
                 commits := s.commits ++ [pid] }
      else s

/-- The forwarding half of the SpeculateK `Token` arm
(multiplexer.rs:371-373): chunks of the Current provider go to the
caller. -/
def specForward (s : SpecState) (pid : String) (chunk : Str) : SpecState :=
  if s.current = some pid then { s with output := s.output ++ [.chunk pid chunk] }
  else s

/-- One iteration of the SpeculateK coordinator loop
(multiplexer.rs:356-389). -/
def specStep (s : SpecState) (e : StreamEvent) : SpecState :=
  if s.finished then s
  else
    match e with
    | .Token pid chunk _ => specForward (specTokenCommit s pid chunk) pid chunk
    | .Done pid _ _ =>
        if s.current = some pid then
          { s with cancel_requested := true, finished := true }
        else s
    | .Error pid error =>
        if s.current = some pid then
          { s with output := s.output ++ [.failure pid error], finished := true }
        else s
    | .Upgrade _ _ _ => s

/-- The SpeculateK coordinator over the received events. -/
def specRun (events : List StreamEvent) : SpecState :=
  events.foldl specStep SpecState.init

/-- The routing directive fields read by `StreamMultiplexer::new`
(types.rs `OmenConfig`, multiplexer.rs:84-95). -/
structure OmenConfig where
  strategy : Option String
  k : Option Nat
  budget_usd : Option ℚ
  max_latency_ms : Option Nat
  min_useful_tokens : Option Nat
deriving DecidableEq

/-- `StreamMultiplexer::new` defaults (multiplexer.rs:88-94). -/
def budgetCapOf (c : OmenConfig) : ℚ := c.budget_usd.getD (1/10)

def maxLatencyOf (c : OmenConfig) : Nat := c.max_latency_ms.getD 3000

def minUsefulOf (c : OmenConfig) : Nat := c.min_useful_tokens.getD 5

/-- A Token event whose chunk passes the useful-token predicate. -/
def isUsefulTokenEvent (min_useful : Nat) : StreamEvent → Prop
  | .Token _ chunk _ => is_useful_token chunk min_useful = true
  | _ => False

instance (min_useful : Nat) (e : StreamEvent) : Decidable (isUsefulTokenEvent min_useful e) := by
  cases e <;> simp [isUsefulTokenEvent] <;> infer_instance

/-- Sum of the `Done.cost_usd` of all completed drivers in a trace — the
quantity the specification's budget ceiling is about. -/
def completedDoneCost : List StreamEvent → ℚ
  | [] => 0
  | .Done _ _ cost :: rest => cost + completedDoneCost rest
  | _ :: rest => completedDoneCost rest

/-! ## Request pipeline effect traces (router.rs)

The externally visible side effects a pipeline entry point performs, in
program order, as read off the bodies of `OmenRouter::chat_completion`
(router.rs:73-161) and `OmenRouter::stream_chat_completion`
(router.rs:163-193). -/

inductive PipelineEffect where
  | cacheHitBump (user : String)
  | checkAllowed (user : String)
  | checkRateLimit (user : String) (estimated_tokens : Nat)
  | providerCall (provider : String)
  | recordUsage (user : String) (input_tokens output_tokens : Nat) (provider_cost : ℚ)
  | updateMetrics (provider : String) (latency_ms : Nat) (success : Bool) (cost : ℚ)
      (tokens : Nat)
  | cachePut (user : String)
  | multiplexStart (strategy : String)
  | streamCall (provider : String)
deriving DecidableEq

def PipelineEffect.isLedgerRecord : PipelineEffect → Bool
  | .recordUsage _ _ _ _ => true
  | _ => false

def PipelineEffect.isMetricsUpdate : PipelineEffect → Bool
  | .updateMetrics _ _ _ _ _ => true
  | _ => false

/-- Effects of `OmenRouter::chat_completion` (router.rs:73-161) on the
successful path.  A cache hit returns after bumping the hit counter;
otherwise, with a tenant, admission runs, the provider is called, then the
ledger record, the metrics update (success hardcoded `true`,
router.rs:135), and the cache write happen; without a tenant only the
provider call happens. -/
def chat_completion_effects (user : Option String) (cacheOn cacheHit : Bool)
    (provider : String) (input_tokens output_tokens latency_ms : Nat)
    (provider_cost : ℚ) : List PipelineEffect :=
  match user with
  | some uid =>
      if cacheOn && cacheHit then [.cacheHitBump uid]
      else
        [.checkAllowed uid, .checkRateLimit uid input_tokens, .providerCall provider,
         .recordUsage uid input_tokens output_tokens provider_cost,
         .updateMetrics provider latency_ms true provider_cost (input_tokens + output_tokens)]
        ++ (if cacheOn then [.cachePut uid] else [])
  | none => [.providerCall provider]

/-- Effects of `OmenRouter::stream_chat_completion` (router.rs:163-193).
With a routing directive it selects candidates and hands them to
`StreamMultiplexer::multiplex_stream`; otherwise it selects one provider
and streams from it directly.  Neither path, nor any code in
multiplexer.rs, calls `BillingManager::record_usage` or
`update_provider_metrics`. -/
def stream_chat_completion_effects (omen : Option OmenConfig) (provider : String) :
    List PipelineEffect :=
  match omen with
  | some cfg => [.multiplexStart (cfg.strategy.getD "race")]
  | none => [.streamCall provider]

/-! ## Concrete inputs used by the counterexamples and witnesses -/

/-- Trace: provider a wins with a useful chunk; loser b then completes with
`Done.cost_usd = 5`, far above the 0.10 budget; a keeps streaming. -/
def evBudget : List StreamEvent :=
  [.Token "a" (str "hello!") 5, .Done "b" 7 5, .Token "a" (str " more text") 20]

/-- Trace: both providers emit only whitespace, then the deadline fires. -/
def evWhitespace : List StreamEvent :=
  [.Token "a" (str "  ") 10, .Token "b" (str " ") 20]

/-- Trace: a whitespace preamble from a, then a useful chunk from b. -/
def evRace : List StreamEvent :=
  [.Token "a" (str " ") 10, .Token "b" (str "42 is the answer") 40,
   .Token "a" (str "hello world") 50, .Token "b" (str "!") 60, .Done "b" 2 (1/100)]

/-- Message list whose last user message asks for an implementation but
whose last message overall is an assistant reply. -/
def exMessages : List ChatMessage :=
  [⟨str "user", .Text (str "please implement quicksort")⟩,
   ⟨str "assistant", .Text (str "sure thing")⟩]

def exOmenConfig : OmenConfig := ⟨some "race", some 2, none, none, none⟩

/-! ## Coordinator invariants -/

/-- Invariant of the Race coordinator loop: the budget branch has not fired,
cost only accumulates at the final break, the loop only ends after a winner
exists, nothing is forwarded before commitment, the commit trace holds
exactly the winner, every forwarded item carries the winner's id, and the
first forwarded item is the committing chunk, which passed the useful-token
predicate. -/
def RaceInv (min_useful : Nat) (s : RaceState) : Prop :=
  s.budget_fired = false ∧
  (s.finished = false → s.total_cost = 0) ∧
  (s.finished = true → s.winner ≠ none) ∧
  (s.winner = none → s.output = [] ∧ s.commits = []) ∧
  ∀ p, s.winner = some p →
    s.commits = [p] ∧ (∀ it ∈ s.output, it.pid = p) ∧
    ∃ c, s.output.head? = some (.chunk p c) ∧ is_useful_token c min_useful = true

/-- Invariant of the SpeculateK coordinator loop: at most two commitments
ever happen (initial election plus at most one upgrade), a second one only
after the upgrade flag is spent, nothing is forwarded before the first
election, and every forwarded item carries the id of a provider that was
Current when it was sent. -/
def SpecInv (s : SpecState) : Prop :=
  s.commits.length ≤ 2 ∧
  (s.can_upgrade = true → s.commits.length ≤ 1) ∧
  (s.current = none → s.output = [] ∧ s.commits = []) ∧
  (∀ p, s.current = some p → p ∈ s.commits) ∧
  (∀ it ∈ s.output, it.pid ∈ s.commits) ∧
  (s.finished = true → s.current ≠ none)

/-! ## Theorems -/

/-- C8: a chunk is useful iff its whitespace-trimmed content is nonempty
and has byte length at least `min_useful_tokens`, or contains a newline, or
contains a code fence; a chunk trimming to empty is never useful. -/
theorem useful_token_characterization (chunk : Str) (min_tokens : Nat) :
    is_useful_token chunk min_tokens = true ↔
      trim chunk ≠ [] ∧
        (min_tokens ≤ utf8Len (trim chunk) ∨
         containsChar (trim chunk) newlineChar = true ∨
         containsStr (trim chunk) fence = true) := by
  unfold is_useful_token
  cases h : (trim chunk).isEmpty
  · simp only [h, Bool.false_eq_true, if_false, Bool.or_eq_true, decide_eq_true_eq]
    have hne : trim chunk ≠ [] := by
      intro hnil
      rw [hnil] at h
      simp at h
    tauto
  · have hnil : trim chunk = [] := by
      cases hh : trim chunk
      · rfl
      · rw [hh] at h
        simp at h
    simp [h, hnil]

theorem useful_token_characterization_witness :
    is_useful_token (str "hello world") 5 = true ∧ is_useful_token (str "  ") 5 = false :=
  ⟨(useful_token_characterization (str "hello world") 5).mpr
      ⟨by decide, Or.inl (by decide)⟩,
   by decide⟩

/-- C9 counterexample: the source classifies by the last message of any
role, not the last user message; on a request ending with an assistant
reply, the last user message asks to implement (intent `code`) while the
source returns `general`. -/
theorem classify_intent_last_user_cex :
    classify_intent exMessages = some (str "general") ∧
    classify_intent_spec_lastUser exMessages = some (str "code") ∧
    classify_intent exMessages ≠ classify_intent_spec_lastUser exMessages := by
  refine ⟨by decide, by decide, by decide⟩

/-- C9 amended: intent is classified by applying the ordered keyword rules
case-insensitively to the last message of the request regardless of role
(an empty message list classifies as `general`). -/
theorem classify_intent_matches_rules_on_last_message (messages : List ChatMessage) :
    classify_intent messages = classify_intent_spec_lastAny messages := by
  unfold classify_intent classify_intent_spec_lastAny
  cases messages.getLast? with
  | none => rfl
  | some last =>
      simp only [intentRules, applyRules, List.any_cons, List.any_nil, Bool.or_false,
        Bool.or_assoc]
      split_ifs <;> rfl

theorem runWindow_bounds_aux (config : RateLimitConfig) (ests : List Nat) :
    ∀ b : RateLimitBucket,
      b.requests ≤ config.requests_per_minute + config.burst_allowance →
      b.tokens ≤ config.tokens_per_minute →
      (ests.foldl (rateLimitStep config) b).requests ≤
          config.requests_per_minute + config.burst_allowance ∧
      (ests.foldl (rateLimitStep config) b).tokens ≤ config.tokens_per_minute := by
  induction ests with
  | nil => intro b h1 h2; exact ⟨h1, h2⟩
  | cons est rest ih =>
      intro b h1 h2
      simp only [List.foldl_cons]
      unfold rateLimitStep check_rate_limit
      by_cases h : b.can_consume config est = true
      · have hc := h
        unfold RateLimitBucket.can_consume at hc
        simp only [Bool.and_eq_true, decide_eq_true_eq] at hc
        simp only [h, if_true]
        exact ih (b.consume est) (by simp only [RateLimitBucket.consume]; omega)
          (by simp only [RateLimitBucket.consume]; omega)
      · simp only [h, if_false, Bool.false_eq_true]
        exact ih b h1 h2

/-- C5: within one rate-limit window the bucket's request counter never
exceeds `requests_per_minute + burst_allowance` and its token counter never
exceeds `tokens_per_minute`; an admission that would violate either bound
is denied with `RateLimitExceeded` and leaves the bucket unchanged. -/
theorem rate_limit_window_bounds (config : RateLimitConfig) (ests : List Nat) :
    ((runWindow config ests).requests ≤
        config.requests_per_minute + config.burst_allowance ∧
      (runWindow config ests).tokens ≤ config.tokens_per_minute) ∧
    ∀ (b : RateLimitBucket) (est : Nat), b.can_consume config est = false →
      check_rate_limit config b est = .error .RateLimitExceeded ∧
        rateLimitStep config b est = b := by
  constructor
  · exact runWindow_bounds_aux config ests RateLimitBucket.new
      (by simp [RateLimitBucket.new]) (by simp [RateLimitBucket.new])
  · intro b est h
    unfold rateLimitStep check_rate_limit
    simp [h]

theorem rate_limit_window_bounds_witness :
    ((runWindow ⟨20, 2000, 5⟩ [100, 2000]).requests ≤ 20 + 5 ∧
      (runWindow ⟨20, 2000, 5⟩ [100, 2000]).tokens ≤ 2000) ∧
    (check_rate_limit ⟨20, 2000, 5⟩ ⟨25, 0⟩ 1 = .error .RateLimitExceeded ∧
      rateLimitStep ⟨20, 2000, 5⟩ ⟨25, 0⟩ 1 = ⟨25, 0⟩) :=
  ⟨(rate_limit_window_bounds ⟨20, 2000, 5⟩ [100, 2000]).1,
   (rate_limit_window_bounds ⟨20, 2000, 5⟩ []).2 ⟨25, 0⟩ 1 (by decide)⟩

theorem applyOps_total_aux (ops : List BillingOp) :
    ∀ u : UserBilling,
      (u.applyOps ops).total_spend_usd = u.total_spend_usd + chargedSum u.tier ops := by
  induction ops with
  | nil => intro u; simp [UserBilling.applyOps, chargedSum]
  | cons op rest ih =>
      intro u
      cases op with
      | record dayChanged monthChanged iT oT cost =>
          have h := ih (u.applyOp (.record dayChanged monthChanged iT oT cost))
          simp only [UserBilling.applyOps, List.foldl_cons] at *
          rw [h]
          cases monthChanged <;>
            simp only [UserBilling.applyOp, UserBilling.record_usage,
              UserBilling.reset_monthly, chargedSum, if_true, if_false,
              Bool.false_eq_true, Bool.true_eq_false] <;>
            ring
      | setTier tier =>
          have h := ih (u.applyOp (.setTier tier))
          simp only [UserBilling.applyOps, List.foldl_cons] at *
          rw [h]
          simp [UserBilling.applyOp, chargedSum]

/-- C6: over any sequence of ledger operations (records under possibly
changing tiers), a tenant's total spend equals the sum of
`provider_cost_usd * cost_multiplier` with the multiplier of the tier in
force at each record. -/
theorem billing_total_spend_sum (user_id : String) (tier : BillingTier)
    (ops : List BillingOp) :
    ((UserBilling.new user_id tier).applyOps ops).total_spend_usd = chargedSum tier ops := by
  have h := applyOps_total_aux ops (UserBilling.new user_id tier)
  simpa [UserBilling.new] using h

theorem updateN_fields (m : ProviderMetrics) (latency_ms : Nat) (success : Bool)
    (cost_usd : ℚ) (tokens_used : Nat) (h : 0 < tokens_used) :
    ∀ n : Nat,
      (updateN m latency_ms success cost_usd tokens_used n).avg_latency_ms =
          emaN m.avg_latency_ms (latency_ms : ℚ) n ∧
      (updateN m latency_ms success cost_usd tokens_used n).success_rate =
          emaN m.success_rate (if success then 1 else 0) n ∧
      (updateN m latency_ms success cost_usd tokens_used n).cost_per_1k_tokens =
          emaN m.cost_per_1k_tokens (cost_usd / (tokens_used : ℚ) * 1000) n := by
  intro n
  induction n with
  | zero => exact ⟨rfl, rfl, rfl⟩
  | succ n ih =>
      obtain ⟨h1, h2, h3⟩ := ih
      unfold updateN update_metrics_from_response
      cases success <;>
        simp only [h, if_true, if_false, Bool.false_eq_true, Bool.true_eq_false, emaN,
          h1, h2, h3] <;>
        refine ⟨by ring_nf, by ring_nf, by ring_nf⟩

theorem emaN_sub (a x : ℚ) : ∀ n : Nat, emaN a x n - x = (1 - alpha) ^ n * (a - x) := by
  intro n
  induction n with
  | zero => simp [emaN]
  | succ n ih =>
      have step : emaN a x (n + 1) - x = (emaN a x n - x) * (1 - alpha) := by
        simp only [emaN, alpha]
        ring
      rw [step, ih, pow_succ]
      ring

theorem emaN_abs_bound (a x : ℚ) (n : Nat) :
    |emaN a x n - x| ≤ (1 - alpha) ^ n * |a - x| := by
  rw [emaN_sub, abs_mul, abs_pow]
  have h : |1 - alpha| = 1 - alpha := abs_of_nonneg (by norm_num [alpha])
  rw [h]

/-- C7: after `N` identical samples, each EMA-updated metric (average
latency, success rate, cost per 1k tokens) is within
`(1 - alpha)^N * |initial - sample|` of the sample value, with
`alpha = 0.10`. -/
theorem ema_convergence_bound (m : ProviderMetrics) (latency_ms : Nat) (success : Bool)
    (cost_usd : ℚ) (tokens_used : Nat) (N : Nat) (h : 0 < tokens_used) :
    |(updateN m latency_ms success cost_usd tokens_used N).avg_latency_ms -
          (latency_ms : ℚ)| ≤
        (1 - alpha) ^ N * |m.avg_latency_ms - (latency_ms : ℚ)| ∧
    |(updateN m latency_ms success cost_usd tokens_used N).success_rate -
          (if success then 1 else 0)| ≤
        (1 - alpha) ^ N * |m.success_rate - (if success then 1 else 0)| ∧
    |(updateN m latency_ms success cost_usd tokens_used N).cost_per_1k_tokens -
          cost_usd / (tokens_used : ℚ) * 1000| ≤
        (1 - alpha) ^ N * |m.cost_per_1k_tokens - cost_usd / (tokens_used : ℚ) * 1000| := by
  obtain ⟨h1, h2, h3⟩ := updateN_fields m latency_ms success cost_usd tokens_used h N
  rw [h1, h2, h3]
  exact ⟨emaN_abs_bound _ _ N, emaN_abs_bound _ _ N, emaN_abs_bound _ _ N⟩

theorem ema_convergence_bound_witness :
    0 < 10 ∧
    (|(updateN ProviderMetrics.default 100 true 1 10 2).avg_latency_ms - (100 : ℚ)| ≤
        (1 - alpha) ^ 2 * |ProviderMetrics.default.avg_latency_ms - (100 : ℚ)| ∧
      |(updateN ProviderMetrics.default 100 true 1 10 2).success_rate - 1| ≤
        (1 - alpha) ^ 2 * |ProviderMetrics.default.success_rate - 1| ∧
      |(updateN ProviderMetrics.default 100 true 1 10 2).cost_per_1k_tokens -
            (1 : ℚ) / (10 : ℚ) * 1000| ≤
        (1 - alpha) ^ 2 * |ProviderMetrics.default.cost_per_1k_tokens -
            (1 : ℚ) / (10 : ℚ) * 1000|) :=
  ⟨by decide, by
    have h := ema_convergence_bound ProviderMetrics.default 100 true 1 10 2 (by decide)
    simpa using h⟩

theorem head?_append_of_some {α : Type} (l l2 : List α) (y : α) (h : l.head? = some y) :
    (l ++ l2).head? = some y := by
  cases l <;> simp_all

theorem raceBudgetCheck_eq (budget_cap : ℚ) (s : RaceState) (h0 : 0 ≤ budget_cap)
    (h : s.total_cost = 0) : raceBudgetCheck budget_cap s = s := by
  unfold raceBudgetCheck
  rw [h]
  simp [not_lt.mpr h0]

theorem raceStep_inv (min_useful : Nat) (budget_cap : ℚ) (h0 : 0 ≤ budget_cap)
    (s : RaceState) (e : StreamEvent) (h : RaceInv min_useful s) :
    RaceInv min_useful (raceStep min_useful budget_cap s e) := by
  obtain ⟨hbf, htc, hfw, hnone, hsome⟩ := h
  unfold raceStep
  by_cases hf : s.finished = true
  · simp only [hf, if_true]
    exact ⟨hbf, htc, hfw, hnone, hsome⟩
  · replace hf : s.finished = false := by
      cases hq : s.finished
      · rfl
      · exact absurd hq hf
    have htc0 : s.total_cost = 0 := htc hf
    simp only [hf, Bool.false_eq_true, if_false]
    cases e with
    | Token pid chunk lat =>
        by_cases hu : (is_useful_token chunk min_useful && s.winner.isNone) = true
        · have hu2 : is_useful_token chunk min_useful = true ∧ s.winner.isNone = true := by
            simpa using hu
          have hwn : s.winner = none := Option.isNone_iff_eq_none.mp hu2.2
          have huse : is_useful_token chunk min_useful = true := hu2.1
          obtain ⟨ho, hcm⟩ := hnone hwn
          simp only [hu, if_true]
          rw [raceBudgetCheck_eq _ _ h0 (by simp [htc0])]
          simp only [ho, hcm]
          refine ⟨hbf, fun _ => htc0, fun _ => by simp, fun hcon => by simp at hcon, ?_⟩
          intro p hp
          simp only [Option.some.injEq] at hp
          subst hp
          refine ⟨by simp, ?_, chunk, by simp, huse⟩
          intro it hit
          simp only [List.nil_append, List.mem_singleton] at hit
          simp [hit, OutItem.pid]
        · simp only [hu, if_false, Bool.false_eq_true]
          by_cases hw : s.winner = some pid
          · simp only [hw, if_true]
            rw [raceBudgetCheck_eq _ _ h0 (by simp [htc0])]
            obtain ⟨hcm, hall, c, hhead, hc⟩ := hsome pid hw
            refine ⟨hbf, fun _ => htc0, fun _ => by simp [hw],
              fun hcon => by simp [hw] at hcon, ?_⟩
            intro p hp
            simp only [hw, Option.some.injEq] at hp
            subst hp
            refine ⟨by simp [hcm], ?_, c, head?_append_of_some _ _ _ hhead, hc⟩
            intro it hit
            simp only [List.mem_append, List.mem_singleton] at hit
            rcases hit with hit | hit
            · exact hall it hit
            · simp [hit, OutItem.pid]
          · simp only [hw, if_false]
            rw [raceBudgetCheck_eq _ _ h0 htc0]
            exact ⟨hbf, htc, hfw, hnone, hsome⟩
    | Done pid tt cost =>
        by_cases hw : s.winner = some pid
        · simp only [hw, if_true]
          refine ⟨hbf, fun hcon => by simp at hcon, fun _ => by simp [hw],
            fun hcon => by simp [hw] at hcon, ?_⟩
          intro p hp
          simp only [hw, Option.some.injEq] at hp
          subst hp
          simpa using hsome pid hw
        · simp only [hw, if_false]
          rw [raceBudgetCheck_eq _ _ h0 htc0]
          exact ⟨hbf, htc, hfw, hnone, hsome⟩
    | Error pid err =>
        by_cases hw : s.winner = some pid
        · simp only [hw, if_true]
          obtain ⟨hcm, hall, c, hhead, hc⟩ := hsome pid hw
          refine ⟨hbf, fun hcon => by simp at hcon, fun _ => by simp [hw],
            fun hcon => by simp [hw] at hcon, ?_⟩
          intro p hp
          simp only [hw, Option.some.injEq] at hp
          subst hp
          refine ⟨hcm, ?_, c, head?_append_of_some _ _ _ hhead, hc⟩
          intro it hit
          simp only [List.mem_append, List.mem_singleton] at hit
          rcases hit with hit | hit
          · exact hall it hit
          · simp [hit, OutItem.pid]
        · simp only [hw, if_false]
          rw [raceBudgetCheck_eq _ _ h0 htc0]
          exact ⟨hbf, htc, hfw, hnone, hsome⟩
    | Upgrade a b r =>
        rw [raceBudgetCheck_eq _ _ h0 htc0]
        exact ⟨hbf, htc, hfw, hnone, hsome⟩

theorem raceBudgetCheck_winner (budget_cap : ℚ) (s : RaceState) :
    (raceBudgetCheck budget_cap s).winner = s.winner := by
  unfold raceBudgetCheck
  split <;> rfl

theorem raceStep_winner_mono (min_useful : Nat) (budget_cap : ℚ) (s : RaceState)
    (e : StreamEvent) (p : String) (h : s.winner = some p) :
    (raceStep min_useful budget_cap s e).winner = some p := by
  have hn : s.winner.isNone = false := by simp [h]
  cases e with
  | Token pid chunk lat =>
      unfold raceStep
      by_cases hf : s.finished = true
      · simp [hf, h]
      · simp only [hf, Bool.false_eq_true, if_false, hn, Bool.and_false,
          raceBudgetCheck_winner]
        by_cases hpq : p = pid <;> simp [h, hpq, raceBudgetCheck_winner]
  | Done pid tt cost =>
      unfold raceStep
      by_cases hf : s.finished = true
      · simp [hf, h]
      · by_cases hpq : p = pid <;> simp [hf, h, hpq, raceBudgetCheck_winner]
  | Error pid err =>
      unfold raceStep
      by_cases hf : s.finished = true
      · simp [hf, h]
      · by_cases hpq : p = pid <;> simp [hf, h, hpq, raceBudgetCheck_winner]
  | Upgrade a b r =>
      unfold raceStep
      by_cases hf : s.finished = true <;> simp [hf, h, raceBudgetCheck_winner]

theorem raceFold_winner_mono (min_useful : Nat) (budget_cap : ℚ) (events : List StreamEvent) :
    ∀ (s : RaceState) (p : String), s.winner = some p →
      (events.foldl (raceStep min_useful budget_cap) s).winner = some p := by
  induction events with
  | nil => intro s p h; exact h
  | cons e rest ih =>
      intro s p h
      simp only [List.foldl_cons]
      exact ih _ p (raceStep_winner_mono min_useful budget_cap s e p h)

theorem raceStep_winner_of_not_useful (min_useful : Nat) (budget_cap : ℚ) (s : RaceState)
    (e : StreamEvent) (h : ¬ isUsefulTokenEvent min_useful e) :
    (raceStep min_useful budget_cap s e).winner = s.winner := by
  cases e with
  | Token pid chunk lat =>
      have hu : is_useful_token chunk min_useful = false := by
        simp only [isUsefulTokenEvent] at h
        cases hq : is_useful_token chunk min_useful
        · rfl
        · exact absurd hq h
      unfold raceStep
      by_cases hf : s.finished = true
      · simp [hf]
      · simp only [hf, Bool.false_eq_true, if_false, hu, Bool.false_and,
          raceBudgetCheck_winner]
        by_cases hp : s.winner = some pid <;> simp [hp, raceBudgetCheck_winner]
  | Done pid tt cost =>
      unfold raceStep
      by_cases hf : s.finished = true
      · simp [hf]
      · by_cases hp : s.winner = some pid <;> simp [hf, hp, raceBudgetCheck_winner]
  | Error pid err =>
      unfold raceStep
      by_cases hf : s.finished = true
      · simp [hf]
      · by_cases hp : s.winner = some pid <;> simp [hf, hp, raceBudgetCheck_winner]
  | Upgrade a b r =>
      unfold raceStep
      by_cases hf : s.finished = true <;> simp [hf, raceBudgetCheck_winner]

theorem raceFold_winner_of_none_useful (min_useful : Nat) (budget_cap : ℚ)
    (events : List StreamEvent) :
    ∀ s : RaceState, (∀ e ∈ events, ¬ isUsefulTokenEvent min_useful e) →
      (events.foldl (raceStep min_useful budget_cap) s).winner = s.winner := by
  induction events with
  | nil => intro s _; rfl
  | cons e rest ih =>
      intro s h
      simp only [List.foldl_cons]
      rw [ih _ fun x hx => h x (List.mem_cons_of_mem e hx)]
      exact raceStep_winner_of_not_useful min_useful budget_cap s e
        (h e (List.mem_cons_self e rest))

theorem raceStep_commits_of_useful (min_useful : Nat) (budget_cap : ℚ) (s : RaceState)
    (e : StreamEvent) (hf : s.finished = false) (hw : s.winner = none)
    (hu : isUsefulTokenEvent min_useful e) :
    (raceStep min_useful budget_cap s e).winner.isSome = true := by
  cases e with
  | Token pid chunk lat =>
      have huse : is_useful_token chunk min_useful = true := hu
      unfold raceStep
      simp only [hf, Bool.false_eq_true, if_false, huse, hw, Option.isNone_none,
        Bool.and_self, if_true, raceBudgetCheck_winner]
      simp [raceBudgetCheck_winner]
  | Done pid tt cost => exact absurd hu (by simp [isUsefulTokenEvent])
  | Error pid err => exact absurd hu (by simp [isUsefulTokenEvent])
  | Upgrade a b r => exact absurd hu (by simp [isUsefulTokenEvent])

theorem raceFold_winner_some (min_useful : Nat) (budget_cap : ℚ) (h0 : 0 ≤ budget_cap)
    (events : List StreamEvent) :
    ∀ s : RaceState, RaceInv min_useful s →
      ((∃ e ∈ events, isUsefulTokenEvent min_useful e) ∨ s.winner.isSome = true) →
      (events.foldl (raceStep min_useful budget_cap) s).winner.isSome = true := by
  induction events with
  | nil =>
      intro s _ h
      rcases h with ⟨e, he, _⟩ | h
      · exact absurd he (List.not_mem_nil e)
      · exact h
  | cons e rest ih =>
      intro s hinv h
      simp only [List.foldl_cons]
      have hinv2 := raceStep_inv min_useful budget_cap h0 s e hinv
      rcases h with ⟨e2, he2, hu2⟩ | hws
      · rcases List.mem_cons.mp he2 with h2 | he2
        · subst h2
          by_cases hw : s.winner.isSome = true
          · obtain ⟨p, hp⟩ := Option.isSome_iff_exists.mp hw
            exact ih _ hinv2
              (Or.inr (by simp [raceStep_winner_mono min_useful budget_cap s e2 p hp]))
          · have hwn : s.winner = none := by
              cases hq : s.winner
              · rfl
              · simp [hq] at hw
            have hfin : s.finished = false := by
              cases hq : s.finished
              · rfl
              · exact absurd (hinv.2.2.1 hq) (by simp [hwn])
            exact ih _ hinv2
              (Or.inr (raceStep_commits_of_useful min_useful budget_cap s e2 hfin hwn hu2))
        · exact ih _ hinv2 (Or.inl ⟨e2, he2, hu2⟩)
      · obtain ⟨p, hp⟩ := Option.isSome_iff_exists.mp hws
        exact ih _ hinv2
          (Or.inr (by simp [raceStep_winner_mono min_useful budget_cap s e p hp]))

theorem raceInv_init (min_useful : Nat) : RaceInv min_useful RaceState.init := by
  refine ⟨rfl, fun _ => rfl, fun hcon => by simp [RaceState.init] at hcon,
    fun _ => ⟨rfl, rfl⟩, fun p hp => by simp [RaceState.init] at hp⟩

theorem raceRun_inv (min_useful : Nat) (budget_cap : ℚ) (h0 : 0 ≤ budget_cap)
    (events : List StreamEvent) :
    RaceInv min_useful (raceRun min_useful budget_cap events) := by
  unfold raceRun
  have aux : ∀ (evs : List StreamEvent) (s : RaceState), RaceInv min_useful s →
      RaceInv min_useful (evs.foldl (raceStep min_useful budget_cap) s) := by
    intro evs
    induction evs with
    | nil => intro s h; exact h
    | cons e rest ih =>
        intro s h
        simp only [List.foldl_cons]
        exact ih _ (raceStep_inv min_useful budget_cap h0 s e h)
  exact aux events RaceState.init (raceInv_init min_useful)

theorem specTokenCommit_output (s : SpecState) (pid : String) (chunk : Str) :
    (specTokenCommit s pid chunk).output = s.output := by
  unfold specTokenCommit
  cases hq : s.current with
  | none => rfl
  | some cur =>
      by_cases hu : (s.can_upgrade && cur != pid && should_upgrade chunk) = true <;>
        simp [hu]

theorem specTokenCommit_finished (s : SpecState) (pid : String) (chunk : Str) :
    (specTokenCommit s pid chunk).finished = s.finished := by
  unfold specTokenCommit
  cases hq : s.current with
  | none => rfl
  | some cur =>
      by_cases hu : (s.can_upgrade && cur != pid && should_upgrade chunk) = true <;>
        simp [hu]

theorem specTokenCommit_current_ne (s : SpecState) (pid : String) (chunk : Str) :
    (specTokenCommit s pid chunk).current ≠ none := by
  unfold specTokenCommit
  cases hq : s.current with
  | none => simp
  | some cur =>
      by_cases hu : (s.can_upgrade && cur != pid && should_upgrade chunk) = true <;>
        simp [hu, hq]

theorem specTokenCommit_commits_mono (s : SpecState) (pid : String) (chunk : Str)
    (p : String) (h : p ∈ s.commits) : p ∈ (specTokenCommit s pid chunk).commits := by
  unfold specTokenCommit
  cases hq : s.current with
  | none => exact List.mem_append_left _ h
  | some cur =>
      by_cases hu : (s.can_upgrade && cur != pid && should_upgrade chunk) = true <;>
        simp [hu, h]

theorem specTokenCommit_commits_ne (s : SpecState) (pid : String) (chunk : Str)
    (hne : s.commits ≠ []) : (specTokenCommit s pid chunk).commits ≠ [] := by
  unfold specTokenCommit
  cases hq : s.current with
  | none => simp
  | some cur =>
      by_cases hu : (s.can_upgrade && cur != pid && should_upgrade chunk) = true <;>
        simp [hu, hne]

theorem specTokenCommit_inv (s : SpecState) (pid : String) (chunk : Str)
    (h : SpecInv s) : SpecInv (specTokenCommit s pid chunk) := by
  obtain ⟨hlen, hup, hnone, hcur, hout, hfin⟩ := h
  unfold specTokenCommit
  cases hq : s.current with
  | none =>
      obtain ⟨ho, hcm⟩ := hnone hq
      refine ⟨?_, ?_, ?_, ?_, ?_, ?_⟩
      · simp [hcm]
      · intro _
        simp [hcm]
      · intro hcon
        simp at hcon
      · intro p hp
        simp only [Option.some.injEq] at hp
        simp [hp]
      · intro it hit
        simp only [] at hit
        rw [ho] at hit
        exact absurd hit (List.not_mem_nil it)
      · intro _
        simp
  | some cur =>
      by_cases hu : (s.can_upgrade && cur != pid && should_upgrade chunk) = true
      · have hcu : s.can_upgrade = true := by
          simp only [Bool.and_eq_true] at hu
          exact hu.1.1
        have hlen1 : s.commits.length ≤ 1 := hup hcu
        simp only [hu, if_true]
        refine ⟨?_, ?_, ?_, ?_, ?_, ?_⟩
        · simp only [List.length_append, List.length_singleton]
          omega
        · intro hcon
          simp at hcon
        · intro hcon
          simp at hcon
        · intro p hp
          simp only [Option.some.injEq] at hp
          simp [hp]
        · intro it hit
          simp only [] at hit
          exact List.mem_append_left _ (hout it hit)
        · intro _
          simp
      · simp only [hu, if_false, Bool.false_eq_true]
        exact ⟨hlen, hup, hnone, hcur, hout, hfin⟩

theorem specForward_commits (s : SpecState) (pid : String) (chunk : Str) :
    (specForward s pid chunk).commits = s.commits := by
  unfold specForward
  split <;> rfl

theorem specForward_inv (s : SpecState) (pid : String) (chunk : Str) (h : SpecInv s) :
    SpecInv (specForward s pid chunk) := by
  obtain ⟨hlen, hup, hnone, hcur, hout, hfin⟩ := h
  unfold specForward
  by_cases hw : s.current = some pid
  · simp only [hw, if_true]
    refine ⟨hlen, hup, fun hcon => by simp [hw] at hcon,
      fun p hp => hcur p (hw.trans hp), ?_, fun _ => by simp [hw]⟩
    intro it hit
    simp only [List.mem_append, List.mem_singleton] at hit
    rcases hit with hit | hit
    · exact hout it hit
    · rw [hit]
      exact hcur pid hw
  · simp only [hw, if_false]
    exact ⟨hlen, hup, hnone, hcur, hout, hfin⟩

theorem specStep_inv (s : SpecState) (e : StreamEvent) (h : SpecInv s) :
    SpecInv (specStep s e) := by
  cases e with
  | Token pid chunk lat =>
      unfold specStep
      by_cases hf : s.finished = true
      · simp only [hf, if_true]
        exact h
      · simp only [hf, Bool.false_eq_true, if_false]
        exact specForward_inv _ pid chunk (specTokenCommit_inv s pid chunk h)
  | Done pid tt cost =>
      obtain ⟨hlen, hup, hnone, hcur, hout, hfin⟩ := h
      unfold specStep
      by_cases hf : s.finished = true
      · simp only [hf, if_true]
        exact ⟨hlen, hup, hnone, hcur, hout, hfin⟩
      · simp only [hf, Bool.false_eq_true, if_false]
        by_cases hw : s.current = some pid
        · simp only [hw, if_true]
          exact ⟨hlen, hup, fun hcon => by simp [hw] at hcon,
            fun p hp => hcur p (hw.trans hp), hout, fun _ => by simp [hw]⟩
        · simp only [hw, if_false]
          exact ⟨hlen, hup, hnone, hcur, hout, hfin⟩
  | Error pid err =>
      obtain ⟨hlen, hup, hnone, hcur, hout, hfin⟩ := h
      unfold specStep
      by_cases hf : s.finished = true
      · simp only [hf, if_true]
        exact ⟨hlen, hup, hnone, hcur, hout, hfin⟩
      · simp only [hf, Bool.false_eq_true, if_false]
        by_cases hw : s.current = some pid
        · simp only [hw, if_true]
          refine ⟨hlen, hup, fun hcon => by simp [hw] at hcon,
            fun p hp => hcur p (hw.trans hp), ?_, fun _ => by simp [hw]⟩
          intro it hit
          simp only [List.mem_append, List.mem_singleton] at hit
          rcases hit with hit | hit
          · exact hout it hit
          · rw [hit]
            exact hcur pid hw
        · simp only [hw, if_false]
          exact ⟨hlen, hup, hnone, hcur, hout, hfin⟩
  | Upgrade a b r =>
      unfold specStep
      by_cases hf : s.finished = true <;> simp [hf, h]

theorem specStep_commits_nonempty (s : SpecState) (e : StreamEvent)
    (hne : s.commits ≠ []) : (specStep s e).commits ≠ [] := by
  cases e with
  | Token pid chunk lat =>
      unfold specStep
      by_cases hf : s.finished = true
      · simp [hf, hne]
      · simp only [hf, Bool.false_eq_true, if_false]
        rw [specForward_commits]
        exact specTokenCommit_commits_ne s pid chunk hne
  | Done pid tt cost =>
      unfold specStep
      by_cases hf : s.finished = true
      · simp [hf, hne]
      · simp only [hf, Bool.false_eq_true, if_false]
        by_cases hw : s.current = some pid <;> simp [hw, hne]
  | Error pid err =>
      unfold specStep
      by_cases hf : s.finished = true
      · simp [hf, hne]
      · simp only [hf, Bool.false_eq_true, if_false]
        by_cases hw : s.current = some pid <;> simp [hw, hne]
  | Upgrade a b r =>
      unfold specStep
      by_cases hf : s.finished = true <;> simp [hf, hne]

theorem specStep_commits_of_token (s : SpecState) (pid : String) (chunk : Str) (lat : Nat)
    (h : SpecInv s) : (specStep s (.Token pid chunk lat)).commits ≠ [] := by
  unfold specStep
  by_cases hf : s.finished = true
  · simp only [hf, if_true]
    have hc := h.2.2.2.2.2 hf
    cases hq : s.current with
    | none => exact absurd hq hc
    | some cur =>
        have hmem := h.2.2.2.1 cur hq
        intro hcon
        rw [hcon] at hmem
        exact List.not_mem_nil cur hmem
  · simp only [hf, Bool.false_eq_true, if_false]
    rw [specForward_commits]
    obtain ⟨p, hp⟩ := Option.ne_none_iff_exists'.mp (specTokenCommit_current_ne s pid chunk)
    have hmem := (specTokenCommit_inv s pid chunk h).2.2.2.1 p hp
    intro hcon
    rw [hcon] at hmem
    exact List.not_mem_nil p hmem

theorem specInv_init : SpecInv SpecState.init := by
  refine ⟨by simp [SpecState.init], by intro _; simp [SpecState.init],
    fun _ => ⟨rfl, rfl⟩, fun p hp => by simp [SpecState.init] at hp,
    fun it hit => by simp [SpecState.init] at hit,
    fun hcon => by simp [SpecState.init] at hcon⟩

theorem specRun_inv (events : List StreamEvent) : SpecInv (specRun events) := by
  unfold specRun
  have aux : ∀ (evs : List StreamEvent) (s : SpecState), SpecInv s →
      SpecInv (evs.foldl specStep s) := by
    intro evs
    induction evs with
    | nil => intro s h; exact h
    | cons e rest ih =>
        intro s h
        simp only [List.foldl_cons]
        exact ih _ (specStep_inv s e h)
  exact aux events SpecState.init specInv_init

theorem specFold_commits_of_token (events : List StreamEvent) :
    ∀ s : SpecState, SpecInv s →
      ((∃ pid chunk lat, StreamEvent.Token pid chunk lat ∈ events) ∨ s.commits ≠ []) →
      (events.foldl specStep s).commits ≠ [] := by
  induction events with
  | nil =>
      intro s _ h
      rcases h with ⟨pid, chunk, lat, hm⟩ | h
      · exact absurd hm (List.not_mem_nil _)
      · exact h
  | cons e rest ih =>
      intro s hinv h
      simp only [List.foldl_cons]
      have hinv2 := specStep_inv s e hinv
      rcases h with ⟨pid, chunk, lat, hm⟩ | hne
      · rcases List.mem_cons.mp hm with h2 | hm
        · subst h2
          exact ih _ hinv2 (Or.inr (specStep_commits_of_token s pid chunk lat hinv))
        · exact ih _ hinv2 (Or.inl ⟨pid, chunk, lat, hm⟩)
      · exact ih _ hinv2 (Or.inr (specStep_commits_nonempty s e hne))

theorem evBudget_take2_state :
    (raceRun 5 (1/10) (evBudget.take 2)).budget_fired = false ∧
    (raceRun 5 (1/10) (evBudget.take 2)).finished = false := by
  have h1 : is_useful_token (str "hello!") 5 = true := by decide
  have hb1 : ¬ ((1 : ℚ)/10 < 0) := by norm_num
  have hb2 : ¬ ((10 : ℚ)⁻¹ < 0) := by norm_num
  have hb3 : ¬ ((10 : ℚ) < 0) := by norm_num
  simp [raceRun, evBudget, raceStep, raceBudgetCheck, RaceState.init, h1,
    hb1, hb2, hb3]

theorem evBudget_full_state :
    (raceRun 5 (1/10) evBudget).output.length = 2 := by
  have h1 : is_useful_token (str "hello!") 5 = true := by decide
  have h2 : is_useful_token (str " more text") 5 = true := by decide
  have hb1 : ¬ ((1 : ℚ)/10 < 0) := by norm_num
  have hb2 : ¬ ((10 : ℚ)⁻¹ < 0) := by norm_num
  have hb3 : ¬ ((10 : ℚ) < 0) := by norm_num
  simp [raceRun, evBudget, raceStep, raceBudgetCheck, RaceState.init, h1, h2,
    hb1, hb2, hb3]

theorem evWhitespace_state :
    (raceRunDeadline 5 (1/10) evWhitespace).cancel_requested = true ∧
    (raceRunDeadline 5 (1/10) evWhitespace).finished = true ∧
    (raceRunDeadline 5 (1/10) evWhitespace).output = [] := by
  have h1 : is_useful_token (str "  ") 5 = false := by decide
  have h2 : is_useful_token (str " ") 5 = false := by decide
  have hb1 : ¬ ((1 : ℚ)/10 < 0) := by norm_num
  have hb2 : ¬ ((10 : ℚ)⁻¹ < 0) := by norm_num
  have hb3 : ¬ ((10 : ℚ) < 0) := by norm_num
  simp [raceRunDeadline, raceRun, evWhitespace, raceStep, raceBudgetCheck,
    RaceState.init, h1, h2, hb1, hb2, hb3]

theorem evRace_winner : (raceRun 5 (1/10) evRace).winner = some "b" := by
  have h1 : is_useful_token (str " ") 5 = false := by decide
  have h2 : is_useful_token (str "42 is the answer") 5 = true := by decide
  have h3 : is_useful_token (str "hello world") 5 = true := by decide
  have h4 : is_useful_token (str "!") 5 = false := by decide
  have hb1 : ¬ ((1 : ℚ)/10 < 0) := by norm_num
  have hb2 : ¬ ((10 : ℚ)⁻¹ < 0) := by norm_num
  have hb3 : ¬ ((10 : ℚ) < 0) := by norm_num
  simp [raceRun, evRace, raceStep, raceBudgetCheck, RaceState.init, h1, h2, h3, h4,
    hb1, hb2, hb3]

/-- C1: in a Race run receiving at least one useful token, exactly one
provider is ever committed (the commit trace is a singleton), and every
item forwarded to the caller carries the committed provider's id; under
SpeculateK at most two commitments happen (the election plus at most one
upgrade), at least one as soon as any token arrives, and every forwarded
item carries the id of a provider that was Current when it was sent. -/
theorem race_speculate_commitment (min_useful : Nat) (budget_cap : ℚ)
    (events : List StreamEvent) (h0 : 0 ≤ budget_cap) :
    ((∃ e ∈ events, isUsefulTokenEvent min_useful e) →
      ∃ p, (raceRun min_useful budget_cap events).winner = some p ∧
        (raceRun min_useful budget_cap events).commits = [p] ∧
        ∀ it ∈ (raceRun min_useful budget_cap events).output, it.pid = p) ∧
    ((specRun events).commits.length ≤ 2 ∧
      (∀ it ∈ (specRun events).output, it.pid ∈ (specRun events).commits) ∧
      ((∃ pid chunk lat, StreamEvent.Token pid chunk lat ∈ events) →
        (specRun events).commits ≠ [])) := by
  constructor
  · intro hex
    have hinv := raceRun_inv min_useful budget_cap h0 events
    have hsome : (raceRun min_useful budget_cap events).winner.isSome = true :=
      raceFold_winner_some min_useful budget_cap h0 events RaceState.init
        (raceInv_init min_useful) (Or.inl hex)
    obtain ⟨p, hp⟩ := Option.isSome_iff_exists.mp hsome
    obtain ⟨hcm, hall, _⟩ := hinv.2.2.2.2 p hp
    exact ⟨p, hp, hcm, hall⟩
  · have hinv := specRun_inv events
    exact ⟨hinv.1, hinv.2.2.2.2.1,
      fun hex => specFold_commits_of_token events SpecState.init specInv_init (Or.inl hex)⟩

theorem race_speculate_commitment_witness :
    (0 : ℚ) ≤ 1/10 ∧
    ∃ p, (raceRun 5 (1/10) evRace).winner = some p ∧
      (raceRun 5 (1/10) evRace).commits = [p] ∧
      ∀ it ∈ (raceRun 5 (1/10) evRace).output, it.pid = p :=
  ⟨by norm_num,
   (race_speculate_commitment 5 (1/10) evRace (by norm_num)).1
     ⟨.Token "b" (str "42 is the answer") 40, by decide, by decide⟩⟩

/-- C2 counterexample: after the loser b completes with `Done.cost_usd = 5`
(far above the 0.10 budget), the sum of completed drivers' Done costs
exceeds the budget, yet the budget branch has not fired, the run is not
terminated, and a further winner chunk is still forwarded afterwards. -/
theorem budget_ceiling_unreachable_cex :
    (1/10 : ℚ) < completedDoneCost (evBudget.take 2) ∧
    (raceRun 5 (1/10) (evBudget.take 2)).budget_fired = false ∧
    (raceRun 5 (1/10) (evBudget.take 2)).finished = false ∧
    (raceRun 5 (1/10) evBudget).output.length = 2 :=
  ⟨by norm_num [evBudget, completedDoneCost],
   evBudget_take2_state.1, evBudget_take2_state.2, evBudget_full_state⟩

/-- C2 amended: the race coordinator accumulates only the committed
winner's `Done.cost_usd`, and that accumulation immediately terminates the
loop before the budget comparison runs, so with any non-negative budget cap
(default 0.10 USD) the budget-breach branch never fires and completed
losers' costs never cancel anything. -/
theorem race_budget_branch_never_fires (min_useful : Nat) (budget_cap : ℚ)
    (events : List StreamEvent) (h0 : 0 ≤ budget_cap) :
    (raceRun min_useful budget_cap events).budget_fired = false ∧
    ((raceRun min_useful budget_cap events).finished = false →
      (raceRun min_useful budget_cap events).total_cost = 0) ∧
    budgetCapOf ⟨none, none, none, none, none⟩ = 1/10 :=
  ⟨(raceRun_inv min_useful budget_cap h0 events).1,
   (raceRun_inv min_useful budget_cap h0 events).2.1, rfl⟩

theorem race_budget_branch_never_fires_witness :
    (0 : ℚ) ≤ 1/10 ∧ (raceRun 5 (1/10) evBudget).budget_fired = false :=
  ⟨by norm_num, (race_budget_branch_never_fires 5 (1/10) evBudget (by norm_num)).1⟩

/-- C3 counterexample: with only whitespace chunks before the deadline, the
coordinator cancels the drivers and closes the output stream, but delivers
no item at all — in particular no `Timeout` error (the embedded error
taxonomy, mirroring error.rs, has no Timeout variant to send). -/
theorem deadline_timeout_no_error_cex :
    (∀ e ∈ evWhitespace, ¬ isUsefulTokenEvent 5 e) ∧
    (raceRunDeadline 5 (1/10) evWhitespace).cancel_requested = true ∧
    (raceRunDeadline 5 (1/10) evWhitespace).finished = true ∧
    (raceRunDeadline 5 (1/10) evWhitespace).output = [] :=
  ⟨by decide, evWhitespace_state.1, evWhitespace_state.2.1, evWhitespace_state.2.2⟩

/-- C3 amended: if no driver produces a useful token before the deadline
(default 3000 ms), all drivers are cancelled and the output sequence
terminates, but with no delivered items and no error: the stream simply
closes. -/
theorem race_deadline_cancels_without_error (min_useful : Nat) (budget_cap : ℚ)
    (events : List StreamEvent) (h0 : 0 ≤ budget_cap)
    (h : ∀ e ∈ events, ¬ isUsefulTokenEvent min_useful e) :
    (raceRunDeadline min_useful budget_cap events).cancel_requested = true ∧
    (raceRunDeadline min_useful budget_cap events).finished = true ∧
    (raceRunDeadline min_useful budget_cap events).output = [] ∧
    maxLatencyOf ⟨none, none, none, none, none⟩ = 3000 := by
  have hinv := raceRun_inv min_useful budget_cap h0 events
  have hw : (raceRun min_useful budget_cap events).winner = none := by
    have hh := raceFold_winner_of_none_useful min_useful budget_cap events RaceState.init h
    simpa [raceRun, RaceState.init] using hh
  have hfin : (raceRun min_useful budget_cap events).finished = false := by
    cases hq : (raceRun min_useful budget_cap events).finished
    · rfl
    · exact absurd (hinv.2.2.1 hq) (by simp [hw])
  have ho : (raceRun min_useful budget_cap events).output = [] := (hinv.2.2.2.1 hw).1
  unfold raceRunDeadline
  simp [hfin, ho, maxLatencyOf]

theorem race_deadline_cancels_without_error_witness :
    (0 : ℚ) ≤ 1/10 ∧
    ((raceRunDeadline 5 (1/10) [.Token "a" (str "\t") 7]).cancel_requested = true ∧
      (raceRunDeadline 5 (1/10) [.Token "a" (str "\t") 7]).finished = true ∧
      (raceRunDeadline 5 (1/10) [.Token "a" (str "\t") 7]).output = [] ∧
      maxLatencyOf ⟨none, none, none, none, none⟩ = 3000) :=
  ⟨by norm_num,
   race_deadline_cancels_without_error 5 (1/10) [.Token "a" (str "\t") 7]
     (by norm_num) (by decide)⟩

/-- C10: in a Race run, nothing is forwarded while no provider is
committed (over any prefix of the event sequence), and when a winner is
committed the first item delivered to the caller is the committing chunk,
which satisfies the useful-token predicate — earlier chunks of the eventual
winner are discarded, not replayed. -/
theorem race_no_output_before_commit (min_useful : Nat) (budget_cap : ℚ)
    (events : List StreamEvent) (h0 : 0 ≤ budget_cap) :
    (∀ n, (raceRun min_useful budget_cap (events.take n)).winner = none →
      (raceRun min_useful budget_cap (events.take n)).output = []) ∧
    ∀ p, (raceRun min_useful budget_cap events).winner = some p →
      ∃ c, (raceRun min_useful budget_cap events).output.head? = some (OutItem.chunk p c) ∧
        is_useful_token c min_useful = true := by
  constructor
  · intro n hw
    exact ((raceRun_inv min_useful budget_cap h0 (events.take n)).2.2.2.1 hw).1
  · intro p hp
    exact ((raceRun_inv min_useful budget_cap h0 events).2.2.2.2 p hp).2.2

theorem race_no_output_before_commit_witness :
    (0 : ℚ) ≤ 1/10 ∧
    ∃ c, (raceRun 5 (1/10) evRace).output.head? = some (OutItem.chunk "b" c) ∧
      is_useful_token c 5 = true :=
  ⟨by norm_num,
   (race_no_output_before_commit 5 (1/10) evRace (by norm_num)).2 "b" evRace_winner⟩

/-- C4 counterexample: on a concrete streaming request carrying a `race`
directive, the streaming pipeline's effect trace is just the multiplexer
hand-off — it contains no ledger record and no metrics update, so neither
has been performed by the time the output sequence terminates. -/
theorem streaming_no_recording_cex :
    stream_chat_completion_effects (some exOmenConfig) "openai" =
      [.multiplexStart "race"] ∧
    ((stream_chat_completion_effects (some exOmenConfig) "openai").all
      fun e => !e.isLedgerRecord && !e.isMetricsUpdate) = true := by
  exact ⟨rfl, rfl⟩

/-- C4 amended: streaming requests never update the billing ledger or the
router metrics — only the non-streaming path does, recording usage and the
metrics update (with the request's latency, success, cost and token
counts) when a tenant is present and the cache did not hit. -/
theorem streaming_records_nothing :
    (∀ (omen : Option OmenConfig) (provider : String),
      ((stream_chat_completion_effects omen provider).all
        fun e => !e.isLedgerRecord && !e.isMetricsUpdate) = true) ∧
    ∀ (uid provider : String) (iT oT lat : Nat) (cost : ℚ),
      PipelineEffect.recordUsage uid iT oT cost ∈
          chat_completion_effects (some uid) true false provider iT oT lat cost ∧
      PipelineEffect.updateMetrics provider lat true cost (iT + oT) ∈
          chat_completion_effects (some uid) true false provider iT oT lat cost := by
  constructor
  · intro omen provider
    cases omen <;> rfl
  · intro uid provider iT oT lat cost
    constructor <;> simp [chat_completion_effects]

end Omen
